import Mathlib

/-!
Verification of the rejection-inversion Zipf sampler (`src/lib.rs` of the
`zipf` crate) against its natural-language specification.

The sampler's `f64` arithmetic is embedded as real arithmetic over `ℝ`,
following the spec's own reading ("real-valued arithmetic is used
throughout").  Machine conversions are made explicit: the Rust cast
`k64 as usize` truncates toward zero (and saturates at 0 for negative
inputs), which for our values is `Int.toNat ⌊k64⌋`.  The caller-supplied
random source is modelled as the list of uniform draws it hands out, and
the unbounded rejection loop of `ZipfDistribution::next` is run against
such a finite list of draws: exhausting the list yields `none`, one
accepted iteration yields `some k` together with the unconsumed suffix of
the draw list.  `Result<Self, ()>` becomes `Except Unit ZipfDistribution`.
A tiny separate model (`F64`, at the end of the definitions) captures the
one IEEE-754 fact the real embedding cannot express: every ordered
comparison involving NaN is false.
-/

open scoped Classical

noncomputable section

/-- `helper1` from src/lib.rs lines 224-230: `log(1 + x) / x`, with the
Taylor-series expansion used when `|x|` is not larger than `1e-8`. -/
def helper1 (x : ℝ) : ℝ :=
  if |x| > 1e-8 then Real.log (1 + x) / x
  else 1 - x * (0.5 - x * (1.0 / 3.0 - 0.25 * x))

/-- `helper2` from src/lib.rs lines 234-240: `(exp(x) - 1) / x`, with the
Taylor-series expansion used when `|x|` is not larger than `1e-8`. -/
def helper2 (x : ℝ) : ℝ :=
  if |x| > 1e-8 then (Real.exp x - 1) / x
  else 1 + x * 0.5 * (1 + x * 1.0 / 3.0 * (1 + 0.25 * x))

/-- The sampler struct of src/lib.rs lines 38-50.  Field `s` is the
fast-path threshold `2 - hIntegralInverse(hIntegral(2.5) - h(2))`. -/
structure ZipfDistribution where
  num_elements : ℝ
  exponent : ℝ
  h_integral_x1 : ℝ
  h_integral_num_elements : ℝ
  s : ℝ

namespace ZipfDistribution

/-- `ZipfDistribution::h_integral` (src/lib.rs lines 199-202):
`H(x) = helper2((1 - exponent) * ln x) * ln x`. -/
def h_integral (x exponent : ℝ) : ℝ :=
  helper2 ((1 - exponent) * Real.log x) * Real.log x

/-- `ZipfDistribution::h` (src/lib.rs lines 205-207): `h(x) = exp(-exponent * ln x)`. -/
def h (x exponent : ℝ) : ℝ :=
  Real.exp (-exponent * Real.log x)

/-- `ZipfDistribution::h_integral_inv` (src/lib.rs lines 211-219):
`t = x * (1 - exponent)` clamped below at `-1`, then `exp(helper1(t) * x)`. -/
def h_integral_inv (x exponent : ℝ) : ℝ :=
  Real.exp
    (helper1 (if x * (1 - exponent) < -1 then -1 else x * (1 - exponent)) * x)

/-- `ZipfDistribution::new` (src/lib.rs lines 57-84).  Both failure paths
return the same value `Except.error ()`, mirroring `Result<Self, ()>`. -/
def new (num_elements : ℕ) (exponent : ℝ) : Except Unit ZipfDistribution :=
  if num_elements = 0 then Except.error ()
  else if exponent ≤ 0 then Except.error ()
  else Except.ok
    { num_elements := (num_elements : ℝ)
      exponent := exponent
      h_integral_x1 := h_integral 1.5 exponent - 1
      h_integral_num_elements := h_integral ((num_elements : ℝ) + 0.5) exponent
      s := 2 - h_integral_inv (h_integral 2.5 exponent - h 2 exponent) exponent }

/-- The value `u` drawn in one iteration of the loop (src/lib.rs line 112):
`u = hnum + draw * (h_integral_x1 - hnum)`, where `draw` is the fresh
uniform value obtained from the random source in this iteration. -/
def iterU (z : ZipfDistribution) (draw : ℝ) : ℝ :=
  z.h_integral_num_elements + draw * (z.h_integral_x1 - z.h_integral_num_elements)

/-- The value `x = h_integral_inv(u, exponent)` of one iteration (line 115). -/
def iterX (z : ZipfDistribution) (draw : ℝ) : ℝ :=
  h_integral_inv (z.iterU draw) z.exponent

/-- The value `k64 = x.max(1.0).min(num_elements)` of one iteration (line 119). -/
def iterK64 (z : ZipfDistribution) (draw : ℝ) : ℝ :=
  min (max (z.iterX draw) 1) z.num_elements

/-- The integer candidate `k = cmp::max(1, k64 as usize)` of one iteration
(line 121).  The Rust float-to-usize cast truncates toward zero and
saturates at zero for negative inputs, which is `Int.toNat ⌊k64⌋`. -/
def candidate (z : ZipfDistribution) (draw : ℝ) : ℕ :=
  max 1 (Int.toNat ⌊z.iterK64 draw⌋)

/-- The acceptance condition tested at src/lib.rs lines 129-132.  Note that
the source evaluates both disjuncts at the clamped real `k64`, not at the
integer candidate `k`. -/
def accepts (z : ZipfDistribution) (draw : ℝ) : Prop :=
  z.iterK64 draw - z.iterX draw ≤ z.s ∨
    z.iterU draw ≥
      h_integral (z.iterK64 draw + 0.5) z.exponent - h (z.iterK64 draw) z.exponent

/-- One iteration of the rejection loop: `some k` on acceptance, `none` on
rejection. -/
def nextStep (z : ZipfDistribution) (draw : ℝ) : Option ℕ :=
  if z.accepts draw then some (z.candidate draw) else none

/-- The rejection loop of `ZipfDistribution::next` (src/lib.rs lines
110-172), run against a finite list of uniform draws.  Each iteration
consumes exactly one draw from the head of the list; the result carries the
returned value (if any), the sampler (threaded through so that frame
properties are statable), and the draws left unconsumed. -/
def next (z : ZipfDistribution) : List ℝ → Option ℕ × ZipfDistribution × List ℝ
  | [] => (none, z, [])
  | draw :: rest =>
    if z.accepts draw then (some (z.candidate draw), z, rest) else z.next rest

/-- `Distribution::sample` (src/lib.rs lines 176-180) just delegates to `next`. -/
def sample (z : ZipfDistribution) (draws : List ℝ) :
    Option ℕ × ZipfDistribution × List ℝ :=
  z.next draws

end ZipfDistribution

/-- Following the spec's words (§4.2 step 3, claim C2), NOT the source: the
candidate obtained by clamping `x` into `[1, N]`, rounding to the nearest
integer via `k = max(1, floor(x + 0.5))`, then clamping `k` to `N` if it
exceeds it.  This definition exists to be compared against the source's
`ZipfDistribution.candidate`. -/
def candidate_spec (N : ℕ) (x : ℝ) : ℕ :=
  min N (max 1 (Int.toNat ⌊min (max x 1) (N : ℝ) + 0.5⌋))

/-- Minimal model of an `f64` for the construction guard: either NaN or a
finite real.  The `ℝ` embedding used everywhere else has no NaN value, so
this model exists solely to express the IEEE-754 comparison semantics that
the guard `exponent <= 0f64` compiles to. -/
inductive F64 where
  | nan : F64
  | finite : ℝ → F64

/-- IEEE-754 ordered `<=` on the `F64` model: false whenever either
operand is NaN. -/
def F64.le : F64 → F64 → Prop
  | F64.finite a, F64.finite b => a ≤ b
  | _, _ => False

instance F64.decLe : (a b : F64) → Decidable (F64.le a b)
  | F64.nan, F64.nan => isFalse fun hc => hc
  | F64.nan, F64.finite _ => isFalse fun hc => hc
  | F64.finite _, F64.nan => isFalse fun hc => hc
  | F64.finite a, F64.finite b => inferInstanceAs (Decidable (a ≤ b))

/-- The control flow of `ZipfDistribution::new` (src/lib.rs lines 57-63)
with the exponent taken from the `F64` model: `Except.ok ()` means both
guards pass and `new` reaches the `Ok(z)` return. -/
def ZipfDistribution.new_guard (num_elements : ℕ) (exponent : F64) : Except Unit Unit :=
  if num_elements = 0 then Except.error ()
  else if F64.le exponent (F64.finite 0) then Except.error ()
  else Except.ok ()

/-! ### Evaluation lemmas for the helper functions -/

lemma helper1_zero : helper1 0 = 1 := by
  unfold helper1
  rw [if_neg (by norm_num)]
  norm_num

lemma helper2_zero : helper2 0 = 1 := by
  unfold helper2
  rw [if_neg (by norm_num)]
  norm_num

lemma h_integral_one (x : ℝ) : ZipfDistribution.h_integral x 1 = Real.log x := by
  unfold ZipfDistribution.h_integral
  norm_num [helper2_zero]

lemma h_integral_inv_one (x : ℝ) : ZipfDistribution.h_integral_inv x 1 = Real.exp x := by
  unfold ZipfDistribution.h_integral_inv
  have hx : x * (1 - (1 : ℝ)) = 0 := by ring
  rw [hx, if_neg (by norm_num : ¬((0 : ℝ) < -1)), helper1_zero, one_mul]

lemma h_one_eval {x : ℝ} (hx : 0 < x) : ZipfDistribution.h x 1 = x⁻¹ := by
  unfold ZipfDistribution.h
  rw [show -(1 : ℝ) * Real.log x = -Real.log x by ring, Real.exp_neg, Real.exp_log hx]

lemma s_one_eval :
    2 - ZipfDistribution.h_integral_inv
        (ZipfDistribution.h_integral 2.5 1 - ZipfDistribution.h 2 1) 1
      = 2 - 5 / 2 * Real.exp (-(1 / 2)) := by
  rw [h_integral_one, h_one_eval (by norm_num : (0 : ℝ) < 2), h_integral_inv_one,
    show (2.5 : ℝ) = 5 / 2 by norm_num,
    show Real.log (5 / 2) - (2 : ℝ)⁻¹ = Real.log (5 / 2) + -(1 / 2) by ring,
    Real.exp_add, Real.exp_log (by norm_num : (0 : ℝ) < 5 / 2)]

/-! ### Destructing a successful construction -/

lemma new_ok_elim {N : ℕ} {e : ℝ} {z : ZipfDistribution}
    (hz : ZipfDistribution.new N e = Except.ok z) :
    1 ≤ N ∧ 0 < e ∧
      z = { num_elements := (N : ℝ), exponent := e,
            h_integral_x1 := ZipfDistribution.h_integral 1.5 e - 1,
            h_integral_num_elements := ZipfDistribution.h_integral ((N : ℝ) + 0.5) e,
            s := 2 - ZipfDistribution.h_integral_inv
                (ZipfDistribution.h_integral 2.5 e - ZipfDistribution.h 2 e) e } := by
  unfold ZipfDistribution.new at hz
  by_cases hN : N = 0
  · simp [hN] at hz
  · rw [if_neg hN] at hz
    by_cases he : e ≤ 0
    · rw [if_pos he] at hz
      simp at hz
    · rw [if_neg he] at hz
      rw [Except.ok.injEq] at hz
      exact ⟨Nat.one_le_iff_ne_zero.mpr hN, lt_of_not_le he, hz.symm⟩

/-! ### Concrete samplers used by witnesses and counterexamples -/

/-- The sampler `new(1, 1.0)` with its constants in closed form. -/
def zC1 : ZipfDistribution :=
  { num_elements := 1, exponent := 1,
    h_integral_x1 := Real.log (3 / 2) - 1,
    h_integral_num_elements := Real.log (3 / 2),
    s := 2 - 5 / 2 * Real.exp (-(1 / 2)) }

/-- The sampler `new(2, 1.0)` with its constants in closed form. -/
def zC2 : ZipfDistribution :=
  { num_elements := 2, exponent := 1,
    h_integral_x1 := Real.log (3 / 2) - 1,
    h_integral_num_elements := Real.log (5 / 2),
    s := 2 - 5 / 2 * Real.exp (-(1 / 2)) }

lemma new_one_one : ZipfDistribution.new 1 1 = Except.ok zC1 := by
  unfold ZipfDistribution.new
  rw [if_neg (by norm_num), if_neg (by norm_num : ¬((1 : ℝ) ≤ 0))]
  unfold zC1
  rw [Except.ok.injEq, ZipfDistribution.mk.injEq]
  refine ⟨by norm_num, rfl, ?_, ?_, s_one_eval⟩
  · rw [h_integral_one]; norm_num
  · rw [show ((1 : ℕ) : ℝ) + 0.5 = 3 / 2 by norm_num, h_integral_one]

/-! ### Evaluation lemmas for exponent 10 (all values become rational) -/

lemma log_ge_third {x : ℝ} (hx : 3 / 2 ≤ x) : 1 / 3 ≤ Real.log x := by
  have h1 : Real.log (2 / 3) ≤ 2 / 3 - 1 :=
    Real.log_le_sub_one_of_pos (by norm_num)
  have h2 : Real.log (3 / 2) = -Real.log (2 / 3) := by
    rw [show (3 / 2 : ℝ) = (2 / 3)⁻¹ by norm_num, Real.log_inv]
  have h3 : Real.log (3 / 2) ≤ Real.log x :=
    (Real.log_le_log_iff (by norm_num) (by linarith)).mpr hx
  linarith

lemma exp_nat_mul_log {x : ℝ} (hx : 0 < x) (n : ℕ) :
    Real.exp ((n : ℝ) * Real.log x) = x ^ n := by
  rw [Real.exp_nat_mul, Real.exp_log hx]

lemma h_integral_ten {x : ℝ} (hx : 3 / 2 ≤ x) :
    ZipfDistribution.h_integral x 10 = (1 - (x ^ (9 : ℕ))⁻¹) / 9 := by
  have hx0 : (0 : ℝ) < x := by linarith
  have hL : 1 / 3 ≤ Real.log x := log_ge_third hx
  have hLpos : 0 < Real.log x := by linarith
  unfold ZipfDistribution.h_integral helper2
  have harg : (1 - (10 : ℝ)) * Real.log x = -(9 * Real.log x) := by ring
  have habs : |(-(9 * Real.log x))| = 9 * Real.log x := by
    rw [abs_neg, abs_of_pos (by linarith)]
  have hsmall : (1e-8 : ℝ) < 3 := by norm_num
  rw [harg, if_pos (by rw [habs]; linarith)]
  have hexp : Real.exp (-(9 * Real.log x)) = (x ^ (9 : ℕ))⁻¹ := by
    rw [Real.exp_neg,
      show (9 : ℝ) * Real.log x = ((9 : ℕ) : ℝ) * Real.log x by norm_num,
      exp_nat_mul_log hx0]
  rw [hexp]
  have hLne : Real.log x ≠ 0 := ne_of_gt hLpos
  have hxne : (x : ℝ) ^ (9 : ℕ) ≠ 0 := by positivity
  field_simp
  ring

lemma h_ten {x : ℝ} (hx : 0 < x) :
    ZipfDistribution.h x 10 = (x ^ (10 : ℕ))⁻¹ := by
  unfold ZipfDistribution.h
  rw [show -(10 : ℝ) * Real.log x = -(((10 : ℕ) : ℝ) * Real.log x) by norm_num,
    Real.exp_neg, exp_nat_mul_log hx]

lemma h_integral_inv_ten {u : ℝ} (h0 : 1e-8 < 9 * u) (h1 : 9 * u < 1) :
    ZipfDistribution.h_integral_inv u 10 = Real.exp (-Real.log (1 - 9 * u) / 9) := by
  have hupos : 0 < u := by
    have h9 : (0 : ℝ) < 9 * u := lt_trans (by norm_num) h0
    linarith
  unfold ZipfDistribution.h_integral_inv
  have ht : u * (1 - (10 : ℝ)) = -(9 * u) := by ring
  rw [ht, if_neg (by push_neg; linarith : ¬(-(9 * u) < -1))]
  unfold helper1
  rw [if_pos (by rw [abs_neg, abs_of_pos (by linarith)]; exact h0)]
  rw [show (1 : ℝ) + -(9 * u) = 1 - 9 * u by ring]
  congr 1
  field_simp
  ring

lemma exp_neg_log_div_nine_le {a c : ℝ} (ha : 0 < a) (hc : 0 < c)
    (h : a⁻¹ ≤ c ^ (9 : ℕ)) : Real.exp (-Real.log a / 9) ≤ c := by
  have h1 : Real.log a⁻¹ ≤ Real.log (c ^ (9 : ℕ)) :=
    (Real.log_le_log_iff (by positivity) (by positivity)).mpr h
  rw [Real.log_inv, Real.log_pow] at h1
  have h2 : -Real.log a / 9 ≤ Real.log c := by
    push_cast at h1
    linarith
  calc Real.exp (-Real.log a / 9) ≤ Real.exp (Real.log c) := Real.exp_le_exp.mpr h2
    _ = c := Real.exp_log hc

lemma lt_exp_neg_log_div_nine {a c : ℝ} (_ha : 0 < a) (hc : 0 < c)
    (h : c ^ (9 : ℕ) < a⁻¹) : c < Real.exp (-Real.log a / 9) := by
  have h1 : Real.log (c ^ (9 : ℕ)) < Real.log a⁻¹ :=
    Real.log_lt_log (by positivity) h
  rw [Real.log_inv, Real.log_pow] at h1
  have h2 : Real.log c < -Real.log a / 9 := by
    push_cast at h1
    linarith
  calc c = Real.exp (Real.log c) := (Real.exp_log hc).symm
    _ < Real.exp (-Real.log a / 9) := Real.exp_lt_exp.mpr h2

/-- The sampler `new(2, 10.0)` with its constants in closed form (for
exponent 10 the transcendental parts collapse to rationals, except for the
ninth root hidden in `s`). -/
def zC3 : ZipfDistribution :=
  { num_elements := 2, exponent := 10,
    h_integral_x1 := 19171 / 177147 - 1,
    h_integral_num_elements := 1952613 / 17578125,
    s := 2 - Real.exp (-Real.log (18102413 / 2000000000) / 9) }

lemma new_two_ten : ZipfDistribution.new 2 10 = Except.ok zC3 := by
  unfold ZipfDistribution.new
  rw [if_neg (by norm_num), if_neg (by norm_num : ¬((10 : ℝ) ≤ 0))]
  unfold zC3
  rw [Except.ok.injEq, ZipfDistribution.mk.injEq]
  refine ⟨by norm_num, rfl, ?_, ?_, ?_⟩
  · rw [show (1.5 : ℝ) = 3 / 2 by norm_num, h_integral_ten (le_refl _)]
    norm_num
  · rw [show ((2 : ℕ) : ℝ) + 0.5 = 5 / 2 by norm_num,
      h_integral_ten (by norm_num)]
    norm_num
  · rw [show (2.5 : ℝ) = 5 / 2 by norm_num, h_integral_ten (by norm_num),
      h_ten (by norm_num : (0 : ℝ) < 2)]
    rw [show (1 - ((5 / 2 : ℝ) ^ (9 : ℕ))⁻¹) / 9 - ((2 : ℝ) ^ (10 : ℕ))⁻¹
        = 220210843 / 2000000000 by norm_num]
    rw [h_integral_inv_ten (by norm_num) (by norm_num)]
    norm_num

lemma new_two_one : ZipfDistribution.new 2 1 = Except.ok zC2 := by
  unfold ZipfDistribution.new
  rw [if_neg (by norm_num), if_neg (by norm_num : ¬((1 : ℝ) ≤ 0))]
  unfold zC2
  rw [Except.ok.injEq, ZipfDistribution.mk.injEq]
  refine ⟨by norm_num, rfl, ?_, ?_, s_one_eval⟩
  · rw [h_integral_one]; norm_num
  · rw [show ((2 : ℕ) : ℝ) + 0.5 = 5 / 2 by norm_num, h_integral_one]

/-! ### Floor computations -/

lemma floor_eight_fifths : ⌊(8 / 5 : ℝ)⌋ = 1 := by
  rw [Int.floor_eq_iff]
  norm_num

lemma floor_seven_fourths : ⌊(7 / 4 : ℝ)⌋ = 1 := by
  rw [Int.floor_eq_iff]
  norm_num

lemma floor_nine_fourths : ⌊(9 / 4 : ℝ)⌋ = 2 := by
  rw [Int.floor_eq_iff]
  norm_num

lemma floor_twentyone_tenths : ⌊(21 / 10 : ℝ)⌋ = 2 := by
  rw [Int.floor_eq_iff]
  norm_num

/-! ### The concrete draw fed to `new(2, 1.0)`: it sends `x` to exactly 7/4 -/

/-- A uniform draw in `[0, 1)`.  Fed to the sampler `new(2, 1.0)` it makes
the iteration value `u` equal `log(7/4)`, hence `x = 7/4` exactly. -/
def dC2 : ℝ := Real.log (10 / 7) / (1 + Real.log (5 / 3))

lemma log53_pos : 0 < Real.log (5 / 3) := Real.log_pos (by norm_num)

lemma dC2_range : 0 ≤ dC2 ∧ dC2 < 1 := by
  unfold dC2
  have h107 : (0 : ℝ) ≤ Real.log (10 / 7) := Real.log_nonneg (by norm_num)
  have hden : (0 : ℝ) < 1 + Real.log (5 / 3) := by linarith [log53_pos]
  constructor
  · exact div_nonneg h107 (le_of_lt hden)
  · rw [div_lt_one hden]
    have hmono : Real.log (10 / 7) ≤ Real.log (5 / 3) :=
      (Real.log_le_log_iff (by norm_num) (by norm_num)).mpr (by norm_num)
    linarith [log53_pos]

lemma zC2_iterU : zC2.iterU dC2 = Real.log (7 / 4) := by
  show Real.log (5 / 2) + dC2 * (Real.log (3 / 2) - 1 - Real.log (5 / 2))
      = Real.log (7 / 4)
  have hsplit : Real.log (3 / 2) - Real.log (5 / 2) = -Real.log (5 / 3) := by
    rw [show (3 / 2 : ℝ) = (5 / 2) * (5 / 3)⁻¹ by norm_num,
      Real.log_mul (by norm_num) (by norm_num), Real.log_inv]
    ring
  have hden : (0 : ℝ) < 1 + Real.log (5 / 3) := by linarith [log53_pos]
  have hd : dC2 * (1 + Real.log (5 / 3)) = Real.log (10 / 7) := by
    unfold dC2
    field_simp
  have hgoal : Real.log (5 / 2) - Real.log (10 / 7) = Real.log (7 / 4) := by
    rw [show (5 / 2 : ℝ) = (7 / 4) * (10 / 7) by norm_num,
      Real.log_mul (by norm_num) (by norm_num)]
    ring
  calc Real.log (5 / 2) + dC2 * (Real.log (3 / 2) - 1 - Real.log (5 / 2))
      = Real.log (5 / 2) - dC2 * (1 + Real.log (5 / 3)) := by
        rw [show Real.log (3 / 2) - 1 - Real.log (5 / 2)
            = (Real.log (3 / 2) - Real.log (5 / 2)) - 1 by ring, hsplit]
        ring
    _ = Real.log (5 / 2) - Real.log (10 / 7) := by rw [hd]
    _ = Real.log (7 / 4) := hgoal

lemma zC2_iterX : zC2.iterX dC2 = 7 / 4 := by
  show ZipfDistribution.h_integral_inv (zC2.iterU dC2) zC2.exponent = 7 / 4
  rw [zC2_iterU, show zC2.exponent = 1 from rfl, h_integral_inv_one,
    Real.exp_log (by norm_num)]

lemma zC2_iterK64 : zC2.iterK64 dC2 = 7 / 4 := by
  show min (max (zC2.iterX dC2) 1) (2 : ℝ) = 7 / 4
  rw [zC2_iterX, max_eq_left (by norm_num : (1 : ℝ) ≤ 7 / 4),
    min_eq_left (by norm_num : (7 / 4 : ℝ) ≤ 2)]

lemma zC2_accepts : zC2.accepts dC2 := by
  unfold ZipfDistribution.accepts
  right
  rw [zC2_iterU, zC2_iterK64,
    show zC2.exponent = 1 from rfl,
    show (7 / 4 : ℝ) + 0.5 = 9 / 4 by norm_num,
    h_integral_one, h_one_eval (by norm_num : (0 : ℝ) < 7 / 4)]
  have hlog97 : Real.log (9 / 7) ≤ 9 / 7 - 1 :=
    Real.log_le_sub_one_of_pos (by norm_num)
  have hsplit : Real.log (9 / 4) - Real.log (7 / 4) = Real.log (9 / 7) := by
    rw [show (9 / 4 : ℝ) = (7 / 4) * (9 / 7) by norm_num,
      Real.log_mul (by norm_num) (by norm_num)]
    ring
  have : (7 / 4 : ℝ)⁻¹ = 4 / 7 := by norm_num
  rw [this, ge_iff_le]
  have h27 : (9 / 7 : ℝ) - 1 ≤ 4 / 7 := by norm_num
  linarith

lemma zC2_candidate : zC2.candidate dC2 = 1 := by
  unfold ZipfDistribution.candidate
  rw [zC2_iterK64, floor_seven_fourths]
  rfl

lemma candidate_spec_two_at : candidate_spec 2 (7 / 4) = 2 := by
  unfold candidate_spec
  rw [max_eq_left (by norm_num : (1 : ℝ) ≤ 7 / 4),
    min_eq_left (by norm_num : (7 / 4 : ℝ) ≤ ((2 : ℕ) : ℝ)),
    show (7 / 4 : ℝ) + 0.5 = 9 / 4 by norm_num, floor_nine_fourths]
  rfl

/-! ### The concrete draw fed to `new(2, 10.0)`: it sends `x` to exactly 8/5 -/

/-- A uniform draw in `[0, 1)`.  Fed to the sampler `new(2, 10.0)` it makes
the iteration value `u` equal `H(8/5)`, hence `x = 8/5` exactly. -/
def dC3 : ℝ :=
  (132264603 / 1207959552 - 1952613 / 17578125) /
    (19171 / 177147 - 1 - 1952613 / 17578125)

lemma dC3_range : 0 ≤ dC3 ∧ dC3 < 1 := by
  unfold dC3
  constructor <;> norm_num

lemma zC3_iterU : zC3.iterU dC3 = 132264603 / 1207959552 := by
  show (1952613 / 17578125 : ℝ)
      + dC3 * (19171 / 177147 - 1 - 1952613 / 17578125) = 132264603 / 1207959552
  unfold dC3
  norm_num

lemma zC3_iterX : zC3.iterX dC3 = 8 / 5 := by
  show ZipfDistribution.h_integral_inv (zC3.iterU dC3) zC3.exponent = 8 / 5
  rw [zC3_iterU, show zC3.exponent = 10 from rfl,
    h_integral_inv_ten (by norm_num) (by norm_num),
    show (1 : ℝ) - 9 * (132264603 / 1207959552) = (5 / 8 : ℝ) ^ (9 : ℕ) by norm_num,
    Real.log_pow,
    show -(((9 : ℕ) : ℝ) * Real.log (5 / 8)) / 9 = -Real.log (5 / 8) by push_cast; ring,
    ← Real.log_inv,
    show ((5 / 8 : ℝ))⁻¹ = 8 / 5 by norm_num,
    Real.exp_log (by norm_num)]

lemma zC3_iterK64 : zC3.iterK64 dC3 = 8 / 5 := by
  show min (max (zC3.iterX dC3) 1) (2 : ℝ) = 8 / 5
  rw [zC3_iterX, max_eq_left (by norm_num : (1 : ℝ) ≤ 8 / 5),
    min_eq_left (by norm_num : (8 / 5 : ℝ) ≤ 2)]

lemma zC3_s_nonneg : 0 ≤ zC3.s := by
  show (0 : ℝ) ≤ 2 - Real.exp (-Real.log (18102413 / 2000000000) / 9)
  have h := exp_neg_log_div_nine_le
    (a := 18102413 / 2000000000) (c := 2) (by norm_num) (by norm_num) (by norm_num)
  linarith

lemma zC3_s_lt : zC3.s < 2 / 5 := by
  show 2 - Real.exp (-Real.log (18102413 / 2000000000) / 9) < 2 / 5
  have h := lt_exp_neg_log_div_nine
    (a := 18102413 / 2000000000) (c := 8 / 5) (by norm_num) (by norm_num) (by norm_num)
  linarith

lemma zC3_accepts : zC3.accepts dC3 := by
  unfold ZipfDistribution.accepts
  left
  rw [zC3_iterK64, zC3_iterX]
  simpa using zC3_s_nonneg

lemma zC3_candidate : zC3.candidate dC3 = 1 := by
  unfold ZipfDistribution.candidate
  rw [zC3_iterK64, floor_eight_fifths]
  rfl

lemma candidate_spec_two_at_85 : candidate_spec 2 (8 / 5) = 2 := by
  unfold candidate_spec
  rw [max_eq_left (by norm_num : (1 : ℝ) ≤ 8 / 5),
    min_eq_left (by norm_num : (8 / 5 : ℝ) ≤ ((2 : ℕ) : ℝ)),
    show (8 / 5 : ℝ) + 0.5 = 21 / 10 by norm_num, floor_twentyone_tenths]
  rfl

/-! ### One full iteration of `new(1, 1.0)` fed the draw `0` -/

lemma zC1_iterU : zC1.iterU 0 = Real.log (3 / 2) := by
  show Real.log (3 / 2) + 0 * (Real.log (3 / 2) - 1 - Real.log (3 / 2))
      = Real.log (3 / 2)
  ring

lemma zC1_iterX : zC1.iterX 0 = 3 / 2 := by
  show ZipfDistribution.h_integral_inv (zC1.iterU 0) zC1.exponent = 3 / 2
  rw [zC1_iterU, show zC1.exponent = 1 from rfl, h_integral_inv_one,
    Real.exp_log (by norm_num)]

lemma zC1_iterK64 : zC1.iterK64 0 = 1 := by
  show min (max (zC1.iterX 0) 1) (1 : ℝ) = 1
  rw [zC1_iterX, max_eq_left (by norm_num : (1 : ℝ) ≤ 3 / 2)]
  exact min_eq_right (by norm_num)

lemma zC1_accepts : zC1.accepts 0 := by
  unfold ZipfDistribution.accepts
  right
  rw [zC1_iterU, zC1_iterK64, show zC1.exponent = 1 from rfl,
    show (1 : ℝ) + 0.5 = 3 / 2 by norm_num, h_integral_one,
    h_one_eval (by norm_num : (0 : ℝ) < 1)]
  norm_num

lemma zC1_candidate : zC1.candidate 0 = 1 := by
  unfold ZipfDistribution.candidate
  rw [zC1_iterK64, Int.floor_one]
  rfl

lemma zC1_sample : (zC1.sample [0]).1 = some 1 := by
  unfold ZipfDistribution.sample
  simp only [ZipfDistribution.next]
  rw [if_pos zC1_accepts]
  simp [zC1_candidate]

/-! ### Structural lemmas about the rejection loop -/

lemma candidate_bounds {z : ZipfDistribution} {N : ℕ} (h1 : 1 ≤ N)
    (hnum : z.num_elements = (N : ℝ)) (d : ℝ) :
    1 ≤ z.candidate d ∧ z.candidate d ≤ N := by
  unfold ZipfDistribution.candidate
  refine ⟨le_max_left _ _, ?_⟩
  have hk : z.iterK64 d ≤ (N : ℝ) := by
    unfold ZipfDistribution.iterK64
    rw [hnum]
    exact min_le_right _ _
  have hfloor : ⌊z.iterK64 d⌋ ≤ (N : ℤ) := by
    calc ⌊z.iterK64 d⌋ ≤ ⌊((N : ℕ) : ℝ)⌋ := Int.floor_le_floor hk
      _ = (N : ℤ) := Int.floor_natCast N
  exact max_le h1 (Int.toNat_le.mpr hfloor)

lemma next_some_candidate {z : ZipfDistribution} :
    ∀ {draws : List ℝ} {k : ℕ}, (z.next draws).1 = some k →
      ∃ d, z.accepts d ∧ k = z.candidate d := by
  intro draws
  induction draws with
  | nil =>
    intro k hk
    simp [ZipfDistribution.next] at hk
  | cons d ds ih =>
    intro k hk
    simp only [ZipfDistribution.next] at hk
    by_cases ha : z.accepts d
    · rw [if_pos ha] at hk
      simp only [Option.some.injEq] at hk
      exact ⟨d, ha, hk.symm⟩
    · rw [if_neg ha] at hk
      exact ih hk

/-! ## The claims -/

/-- C1: for every sampler successfully constructed with `num_elements = N`
(so `N ≥ 1`) and exponent `e > 0`, and every finite sequence of uniform
draws in `[0, 1)` supplied by the random source, every call to `sample`
that returns a value returns an integer `k` with `1 ≤ k ≤ N`. -/
theorem claim_C1_sample_in_range (N : ℕ) (e : ℝ) (z : ZipfDistribution)
    (hz : ZipfDistribution.new N e = Except.ok z)
    (draws : List ℝ) (_hdraws : ∀ d ∈ draws, 0 ≤ d ∧ d < 1)
    (k : ℕ) (hk : (z.sample draws).1 = some k) :
    1 ≤ k ∧ k ≤ N := by
  obtain ⟨hN, he, hzz⟩ := new_ok_elim hz
  have hnum : z.num_elements = (N : ℝ) := by rw [hzz]
  have hk2 : (z.next draws).1 = some k := hk
  obtain ⟨d, hd, hkc⟩ := next_some_candidate hk2
  rw [hkc]
  exact candidate_bounds hN hnum d

/-- Witness for C1: `new(1, 1.0)` fed the single uniform draw `0` returns
`some 1`, and the theorem applies. -/
theorem claim_C1_witness : 1 ≤ 1 ∧ 1 ≤ 1 :=
  claim_C1_sample_in_range 1 1 zC1 new_one_one [0]
    (by
      intro d hd
      rw [List.mem_singleton] at hd
      rw [hd]
      norm_num)
    1 zC1_sample

/-- C2 counterexample: with the sampler `new(2, 1.0)` and the concrete
uniform draw `dC2 ∈ [0, 1)`, the iteration's inverse value is `x = 7/4`;
the code truncates and returns candidate `1`, while the claimed formula
("clamp, add 0.5, floor, cap at num_elements") yields `2`. -/
theorem claim_C2_counterexample :
    ZipfDistribution.new 2 1 = Except.ok zC2 ∧
    (0 ≤ dC2 ∧ dC2 < 1) ∧
    (zC2.sample [dC2]).1 = some 1 ∧
    zC2.candidate dC2 = 1 ∧
    candidate_spec 2 (zC2.iterX dC2) = 2 := by
  refine ⟨new_two_one, dC2_range, ?_, zC2_candidate, ?_⟩
  · unfold ZipfDistribution.sample
    simp only [ZipfDistribution.next]
    rw [if_pos zC2_accepts]
    simp [zC2_candidate]
  · rw [zC2_iterX]
    exact candidate_spec_two_at

/-- C2 (amended): in every iteration the integer candidate is obtained by
clamping `x` into `[1, num_elements]` and then truncating toward zero (there
is no `+ 0.5` rounding step): `k = max(1, trunc(clamp(x)))`.  The truncated
candidate never exceeds `num_elements`, so no further clamp of `k` occurs,
and the candidate is exactly what an accepting iteration returns. -/
theorem claim_C2_candidate_truncates (N : ℕ) (e : ℝ) (z : ZipfDistribution)
    (hz : ZipfDistribution.new N e = Except.ok z) (d : ℝ) :
    z.candidate d = max 1 (Int.toNat ⌊min (max (z.iterX d) 1) ((N : ℕ) : ℝ)⌋) ∧
    1 ≤ z.candidate d ∧ z.candidate d ≤ N ∧
    (∀ k, z.nextStep d = some k → k = z.candidate d) := by
  obtain ⟨hN, he, hzz⟩ := new_ok_elim hz
  have hnum : z.num_elements = (N : ℝ) := by rw [hzz]
  obtain ⟨hb1, hb2⟩ := candidate_bounds hN hnum d
  refine ⟨?_, hb1, hb2, ?_⟩
  · unfold ZipfDistribution.candidate ZipfDistribution.iterK64
    rw [hnum]
  · intro k hk
    unfold ZipfDistribution.nextStep at hk
    by_cases ha : z.accepts d
    · rw [if_pos ha] at hk
      simp only [Option.some.injEq] at hk
      exact hk.symm
    · rw [if_neg ha] at hk
      cases hk

/-- Witness for C2's amended theorem, at `new(2, 1.0)` and draw `0`. -/
theorem claim_C2_witness : 1 ≤ zC2.candidate 0 ∧ zC2.candidate 0 ≤ 2 :=
  ⟨(claim_C2_candidate_truncates 2 1 zC2 new_two_one 0).2.1,
   (claim_C2_candidate_truncates 2 1 zC2 new_two_one 0).2.2.1⟩

/-- C3 counterexample: with `new(2, 10.0)` and the concrete draw
`dC3 ∈ [0, 1)` the iteration has `x = 8/5`, the code accepts and returns
`1`; yet for `k` the rounded integer candidate of that iteration (`k = 2`
under the rounding rule of the claims), NEITHER claimed disjunct holds:
`k - x = 2/5 > s_threshold` and `u < H(k + 0.5) - h(k)`.  The code's test
is evaluated at the clamped real `k64 = 8/5`, not at the integer. -/
theorem claim_C3_counterexample :
    ZipfDistribution.new 2 10 = Except.ok zC3 ∧
    (0 ≤ dC3 ∧ dC3 < 1) ∧
    (zC3.sample [dC3]).1 = some 1 ∧
    candidate_spec 2 (zC3.iterX dC3) = 2 ∧
    ¬((candidate_spec 2 (zC3.iterX dC3) : ℝ) - zC3.iterX dC3 ≤ zC3.s ∨
      zC3.iterU dC3 ≥
        ZipfDistribution.h_integral
            ((candidate_spec 2 (zC3.iterX dC3) : ℝ) + 0.5) zC3.exponent
          - ZipfDistribution.h ((candidate_spec 2 (zC3.iterX dC3) : ℝ))
              zC3.exponent) := by
  have hx : zC3.iterX dC3 = 8 / 5 := zC3_iterX
  have hkr : candidate_spec 2 (zC3.iterX dC3) = 2 := by
    rw [hx]
    exact candidate_spec_two_at_85
  refine ⟨new_two_ten, dC3_range, ?_, hkr, ?_⟩
  · unfold ZipfDistribution.sample
    simp only [ZipfDistribution.next]
    rw [if_pos zC3_accepts]
    simp [zC3_candidate]
  · rw [hkr, hx, zC3_iterU, show zC3.exponent = 10 from rfl]
    push_neg
    constructor
    · have hs := zC3_s_lt
      push_cast
      linarith
    · rw [show ((2 : ℕ) : ℝ) + 0.5 = 5 / 2 by push_cast; norm_num,
        show ((2 : ℕ) : ℝ) = (2 : ℝ) by push_cast; ring,
        h_integral_ten (by norm_num : (3 / 2 : ℝ) ≤ 5 / 2),
        h_ten (by norm_num : (0 : ℝ) < 2)]
      norm_num

/-- C3 (amended): an iteration accepts, and returns its integer candidate,
iff `k64 - x ≤ s_threshold` or `u ≥ H(k64 + 0.5) - h(k64)` where `k64` is
the clamped REAL value `min(max(x, 1), num_elements)`: the source evaluates
the acceptance test at `k64`, not at the rounded integer candidate. -/
theorem claim_C3_acceptance (z : ZipfDistribution) (d : ℝ) (k : ℕ) :
    z.nextStep d = some k ↔
      ((z.iterK64 d - z.iterX d ≤ z.s ∨
        z.iterU d ≥
          ZipfDistribution.h_integral (z.iterK64 d + 0.5) z.exponent
            - ZipfDistribution.h (z.iterK64 d) z.exponent) ∧
       k = max 1 (Int.toNat ⌊z.iterK64 d⌋)) := by
  unfold ZipfDistribution.nextStep
  by_cases ha : z.accepts d
  · rw [if_pos ha]
    simp only [Option.some.injEq]
    constructor
    · intro h
      exact ⟨ha, h.symm⟩
    · intro h
      exact h.2.symm
  · rw [if_neg ha]
    constructor
    · intro h
      cases h
    · intro h
      exact absurd h.1 ha

/-- Witness for C3's amended theorem: the sampler `new(1, 1.0)` with draw
`0` accepts and returns 1. -/
theorem claim_C3_witness : zC1.nextStep 0 = some 1 :=
  (claim_C3_acceptance zC1 0 1).mpr ⟨zC1_accepts, zC1_candidate.symm⟩

/-- C4 counterexample: both failure causes return the very same value
`Except.error ()` (the source's error type is the unit type `()`), so the
two causes are NOT distinguishable by the caller as the claim asserts. -/
theorem claim_C4_counterexample :
    ZipfDistribution.new 0 1 = Except.error () ∧
    ZipfDistribution.new 100 0 = Except.error () ∧
    ZipfDistribution.new 0 1 = ZipfDistribution.new 100 0 := by
  have h1 : ZipfDistribution.new 0 1 = Except.error () := by
    unfold ZipfDistribution.new
    rw [if_pos rfl]
  have h2 : ZipfDistribution.new 100 0 = Except.error () := by
    unfold ZipfDistribution.new
    rw [if_neg (by norm_num), if_pos (le_refl (0 : ℝ))]
  exact ⟨h1, h2, h1.trans h2.symm⟩

/-- C4 (amended): construction fails exactly when `num_elements = 0` or
`exponent ≤ 0` and succeeds otherwise; both failures yield the single unit
error `()` (the check for zero population runs first), so the two causes
are not distinguishable from the returned value. -/
theorem claim_C4_failure_conditions (n : ℕ) (e : ℝ) :
    (ZipfDistribution.new n e = Except.error () ↔ n = 0 ∨ e ≤ 0) ∧
    (¬(n = 0 ∨ e ≤ 0) → ∃ z, ZipfDistribution.new n e = Except.ok z) := by
  constructor
  · constructor
    · intro h
      by_contra hc
      push_neg at hc
      obtain ⟨hn, he⟩ := hc
      unfold ZipfDistribution.new at h
      rw [if_neg hn, if_neg (not_le.mpr he)] at h
      simp at h
    · intro h
      unfold ZipfDistribution.new
      rcases h with h | h
      · rw [if_pos h]
      · by_cases hn : n = 0
        · rw [if_pos hn]
        · rw [if_neg hn, if_pos h]
  · intro h
    push_neg at h
    unfold ZipfDistribution.new
    rw [if_neg h.1, if_neg (not_le.mpr h.2)]
    exact ⟨_, rfl⟩

/-- Witness for C4's amended theorem: `new(0, 1.0)` fails. -/
theorem claim_C4_witness : ZipfDistribution.new 0 1 = Except.error () :=
  (claim_C4_failure_conditions 0 1).1.mpr (Or.inl rfl)

/-- C5: on every successful construction the stored constants are exactly
`h_integral_x1 = H(1.5, s) - 1`, `h_integral_num_elements = H(N + 0.5, s)`
and `s_threshold = 2 - H⁻¹(H(2.5, s) - h(2, s))`, with `H`, `h`, `H⁻¹` the
helper functions of the source; the embedding stores them in immutable
fields computed once by `new`. -/
theorem claim_C5_constants (N : ℕ) (e : ℝ) (z : ZipfDistribution)
    (hz : ZipfDistribution.new N e = Except.ok z) :
    z.num_elements = (N : ℝ) ∧ z.exponent = e ∧
    z.h_integral_x1 = ZipfDistribution.h_integral 1.5 e - 1 ∧
    z.h_integral_num_elements = ZipfDistribution.h_integral ((N : ℝ) + 0.5) e ∧
    z.s = 2 - ZipfDistribution.h_integral_inv
        (ZipfDistribution.h_integral 2.5 e - ZipfDistribution.h 2 e) e := by
  obtain ⟨hN, he, hzz⟩ := new_ok_elim hz
  rw [hzz]
  exact ⟨rfl, rfl, rfl, rfl, rfl⟩

/-- Witness for C5 at `new(1, 1.0)`. -/
theorem claim_C5_witness :
    zC1.num_elements = ((1 : ℕ) : ℝ) ∧ zC1.exponent = 1 ∧
    zC1.h_integral_x1 = ZipfDistribution.h_integral 1.5 1 - 1 ∧
    zC1.h_integral_num_elements
      = ZipfDistribution.h_integral (((1 : ℕ) : ℝ) + 0.5) 1 ∧
    zC1.s = 2 - ZipfDistribution.h_integral_inv
        (ZipfDistribution.h_integral 2.5 1 - ZipfDistribution.h 2 1) 1 :=
  claim_C5_constants 1 1 zC1 new_one_one

/-- C6: `helper2(y)` equals `(e^y - 1)/y` when `|y| > 1e-8` and the Taylor
polynomial `1 + y/2(1 + y/3(1 + y/4))` when `|y| ≤ 1e-8`; `helper1(t)`
equals `ln(1+t)/t` when `|t| > 1e-8` and `1 - t(0.5 - t(1/3 - t/4))` when
`|t| ≤ 1e-8`; the threshold is exactly `1e-8` in both. -/
theorem claim_C6_helpers (y t : ℝ) :
    ((1e-8 < |y| → helper2 y = (Real.exp y - 1) / y) ∧
     (|y| ≤ 1e-8 → helper2 y = 1 + y / 2 * (1 + y / 3 * (1 + y / 4)))) ∧
    ((1e-8 < |t| → helper1 t = Real.log (1 + t) / t) ∧
     (|t| ≤ 1e-8 → helper1 t = 1 - t * (0.5 - t * (1 / 3 - t / 4)))) := by
  refine ⟨⟨?_, ?_⟩, ?_, ?_⟩
  · intro h
    unfold helper2
    rw [if_pos h]
  · intro h
    unfold helper2
    rw [if_neg (not_lt.mpr h)]
    ring
  · intro h
    unfold helper1
    rw [if_pos h]
  · intro h
    unfold helper1
    rw [if_neg (not_lt.mpr h)]
    ring

/-- Witness for C6 at `y = t = 0` (the Taylor branches). -/
theorem claim_C6_witness :
    helper2 0 = 1 + 0 / 2 * (1 + 0 / 3 * (1 + 0 / 4)) ∧
    helper1 0 = 1 - 0 * (0.5 - 0 * (1 / 3 - 0 / 4)) :=
  ⟨(claim_C6_helpers 0 0).1.2 (by norm_num),
   (claim_C6_helpers 0 0).2.2 (by norm_num)⟩

/-- C7: two samplers constructed with identical `(N, e)` are equal, and fed
the identical sequence of uniform draws they produce identical outputs —
sampling is a deterministic function of the parameters and the supplied
draw sequence. -/
theorem claim_C7_deterministic (N : ℕ) (e : ℝ) (z1 z2 : ZipfDistribution)
    (draws : List ℝ)
    (h1 : ZipfDistribution.new N e = Except.ok z1)
    (h2 : ZipfDistribution.new N e = Except.ok z2) :
    z1 = z2 ∧ z1.sample draws = z2.sample draws := by
  rw [h1] at h2
  rw [Except.ok.injEq] at h2
  exact ⟨h2, by rw [h2]⟩

/-- Witness for C7 at `new(1, 1.0)` twice, with draw sequence `[0]`. -/
theorem claim_C7_witness : zC1 = zC1 ∧ zC1.sample [0] = zC1.sample [0] :=
  claim_C7_deterministic 1 1 zC1 zC1 [0] new_one_one new_one_one

/-- C8: the sampler threaded through a call to `sample` comes back with
every field unchanged, and when the call returns, the consumed draws
decompose into one draw per rejecting iteration plus the one draw of the
accepting iteration — exactly one uniform draw per loop iteration. -/
theorem claim_C8_frame_and_draws (z : ZipfDistribution) (draws : List ℝ) :
    (z.sample draws).2.1 = z ∧
    (∀ k rest, z.sample draws = (some k, z, rest) →
      ∃ rejected d, draws = rejected ++ d :: rest ∧
        (∀ r ∈ rejected, z.nextStep r = none) ∧ z.nextStep d = some k) := by
  unfold ZipfDistribution.sample
  induction draws with
  | nil =>
    constructor
    · simp [ZipfDistribution.next]
    · intro k rest h
      simp [ZipfDistribution.next] at h
  | cons d ds ih =>
    by_cases ha : z.accepts d
    · constructor
      · simp only [ZipfDistribution.next]
        rw [if_pos ha]
      · intro k rest h
        simp only [ZipfDistribution.next] at h
        rw [if_pos ha] at h
        simp only [Prod.mk.injEq, Option.some.injEq] at h
        obtain ⟨hk, -, hrest⟩ := h
        refine ⟨[], d, ?_, ?_, ?_⟩
        · rw [hrest]
          rfl
        · intro r hr
          cases hr
        · unfold ZipfDistribution.nextStep
          rw [if_pos ha, hk]
    · constructor
      · simp only [ZipfDistribution.next]
        rw [if_neg ha]
        exact ih.1
      · intro k rest h
        simp only [ZipfDistribution.next] at h
        rw [if_neg ha] at h
        obtain ⟨rej, dd, hsplit, hrej, hdd⟩ := ih.2 k rest h
        refine ⟨d :: rej, dd, by rw [hsplit]; rfl, ?_, hdd⟩
        intro r hr
        rcases List.mem_cons.mp hr with hr1 | hr2
        · rw [hr1]
          unfold ZipfDistribution.nextStep
          rw [if_neg ha]
        · exact hrej r hr2

/-- Witness for C8 at `new(1, 1.0)`'s sampler and draw sequence `[0]`. -/
theorem claim_C8_witness : (zC1.sample [0]).2.1 = zC1 :=
  (claim_C8_frame_and_draws zC1 [0]).1

/-- C9: for every `N ≥ 1`, construction with exponent exactly `1.0`
succeeds, and the four stored constants equal the explicit well-defined
real values below (the Taylor branch of the helpers handles the
`1/(1 - s)` singularity, so no division by zero occurs at `s = 1`). -/
theorem claim_C9_exponent_one (N : ℕ) (hN : 1 ≤ N) :
    ∃ z, ZipfDistribution.new N 1 = Except.ok z ∧
      z.num_elements = (N : ℝ) ∧ z.exponent = 1 ∧
      z.h_integral_x1 = Real.log (3 / 2) - 1 ∧
      z.h_integral_num_elements = Real.log ((N : ℝ) + 1 / 2) ∧
      z.s = 2 - 5 / 2 * Real.exp (-(1 / 2)) := by
  have hnz : N ≠ 0 := by omega
  refine ⟨{ num_elements := (N : ℝ), exponent := 1,
            h_integral_x1 := Real.log (3 / 2) - 1,
            h_integral_num_elements := Real.log ((N : ℝ) + 1 / 2),
            s := 2 - 5 / 2 * Real.exp (-(1 / 2)) },
    ?_, rfl, rfl, rfl, rfl, rfl⟩
  unfold ZipfDistribution.new
  rw [if_neg hnz, if_neg (by norm_num : ¬((1 : ℝ) ≤ 0))]
  rw [Except.ok.injEq, ZipfDistribution.mk.injEq]
  refine ⟨rfl, rfl, ?_, ?_, s_one_eval⟩
  · rw [h_integral_one]
    norm_num
  · rw [h_integral_one, show ((N : ℝ) + 0.5) = (N : ℝ) + 1 / 2 by norm_num]

/-- Witness for C9 at `N = 1`. -/
theorem claim_C9_witness :
    ∃ z, ZipfDistribution.new 1 1 = Except.ok z ∧
      z.num_elements = ((1 : ℕ) : ℝ) ∧ z.exponent = 1 ∧
      z.h_integral_x1 = Real.log (3 / 2) - 1 ∧
      z.h_integral_num_elements = Real.log (((1 : ℕ) : ℝ) + 1 / 2) ∧
      z.s = 2 - 5 / 2 * Real.exp (-(1 / 2)) :=
  claim_C9_exponent_one 1 (le_refl 1)

/-- C10: for every `num_elements ≥ 1`, the construction guard passes when
the exponent is NaN: the only exponent validation is `exponent <= 0`, which
is false for NaN under IEEE-754 comparison semantics, so `new` reaches its
`Ok` return and hands back a sampler.  (Stated over the `F64` comparison
model, since the `ℝ` embedding has no NaN.) -/
theorem claim_C10_nan_exponent (n : ℕ) (hn : 1 ≤ n) :
    ZipfDistribution.new_guard n F64.nan = Except.ok () := by
  unfold ZipfDistribution.new_guard
  rw [if_neg (by omega : ¬(n = 0)),
    if_neg (show ¬F64.le F64.nan (F64.finite 0) from fun hc => hc)]

/-- Witness for C10 at `num_elements = 1`. -/
theorem claim_C10_witness : ZipfDistribution.new_guard 1 F64.nan = Except.ok () :=
  claim_C10_nan_exponent 1 (le_refl 1)

end
